import Mathlib

/-!
Verification development for the client-side service layer of the
`alphacode-template` repository (`src/services`): the query-string builder
(`buildUrlWithParams`), the configured HTTP client with its request and
response interceptors (`createApiClient`), the generic fetch dispatcher
(`apiFetch`), and the endpoint compositions `executeModel` and `getReport`.

The TypeScript code is shallowly embedded: JavaScript strings are Lean
`String`s (lists of unicode scalars), JavaScript numbers appearing in the
relevant call sites are integers and are embedded as `Int`, `URLSearchParams`
is embedded as a list of name/value pairs together with the
`application/x-www-form-urlencoded` serializer (percent-encoding over UTF-8
bytes, space encoded as `+`, uppercase hex digits), and promise outcomes are
embedded as `Except` values.
-/

namespace AlphacodeTemplate

/-! ## Query-string builder (`src/services/utils.ts`)

`buildUrlWithParams(url, params)` receives a record whose values are
`string | number | boolean | undefined | null | Array<string | number>`.
-/

/-- An element of an array-valued query parameter: `string | number`. -/
inductive ParamItem where
  | istr (s : String)
  | inum (n : Int)
deriving DecidableEq, Repr

/-- A value of the `params` record accepted by `buildUrlWithParams`:
`string | number | boolean | undefined | null | Array<string | number>`. -/
inductive ParamValue where
  | str (s : String)
  | num (n : Int)
  | bool (b : Bool)
  | undef
  | null
  | arr (items : List ParamItem)
deriving DecidableEq, Repr

/-- JavaScript `String(item)` for an array element. -/
def itemToString : ParamItem → String
  | .istr s => s
  | .inum n => toString n

/-- The name/value pairs appended to the `URLSearchParams` for one entry of
the record: `undefined`/`null` entries are skipped (`continue`), arrays are
expanded with brackets (`searchParams.append(key ++ "[]", String(item))`),
and every other value is appended once as `searchParams.append(key,
String(value))`. -/
def pairsOfEntry (key : String) : ParamValue → List (String × String)
  | .undef => []
  | .null => []
  | .arr items => items.map (fun it => (key ++ "[]", itemToString it))
  | .str s => [(key, s)]
  | .num n => [(key, toString n)]
  | .bool b => [(key, if b then "true" else "false")]

/-- The full list of name/value pairs accumulated in the `URLSearchParams`
by the `for (const [key, value] of Object.entries(params))` loop. -/
def buildPairs (params : List (String × ParamValue)) : List (String × String) :=
  (params.map (fun p => pairsOfEntry p.1 p.2)).flatten

/-! ### The `application/x-www-form-urlencoded` serializer

`URLSearchParams.toString()` percent-encodes every character that is not an
ASCII alphanumeric or one of `*`, `-`, `.`, `_`; the space is serialized as
`+`; other characters are encoded as the `%XX` forms of their UTF-8 bytes
with uppercase hex digits. -/

/-- Uppercase hexadecimal digit for `n < 16`. -/
def hexDigitChar (n : Nat) : Char :=
  if n < 10 then Char.ofNat (48 + n) else Char.ofNat (55 + n)

/-- The UTF-8 bytes of a unicode scalar value. -/
def utf8Bytes (c : Char) : List Nat :=
  let n := c.toNat
  if n < 128 then [n]
  else if n < 2048 then [192 + n / 64, 128 + n % 64]
  else if n < 65536 then [224 + n / 4096, 128 + (n / 64) % 64, 128 + n % 64]
  else [240 + n / 262144, 128 + (n / 4096) % 64, 128 + (n / 64) % 64, 128 + n % 64]

/-- `%XX` form of one byte. -/
def percentByte (b : Nat) : List Char :=
  ['%', hexDigitChar (b / 16), hexDigitChar (b % 16)]

/-- Characters left unescaped by the `application/x-www-form-urlencoded`
percent-encode set: ASCII alphanumerics and `*`, `-`, `.`, `_`. -/
def isUrlUnreserved (c : Char) : Bool :=
  c.isAlphanum || c = '*' || c = '-' || c = '.' || c = '_'

/-- Encoding of a single character in a serialized name or value. -/
def encodeChar (c : Char) : List Char :=
  if isUrlUnreserved c then [c]
  else if c = ' ' then ['+']
  else ((utf8Bytes c).map percentByte).flatten

/-- Encoding of a character sequence. -/
def encodeList (cs : List Char) : List Char :=
  (cs.map encodeChar).flatten

/-- Encoding of a name or value string. -/
def encodeString (s : String) : String :=
  String.mk (encodeList s.toList)

/-- Serialized characters of one `name=value` pair. -/
def pairChars (p : String × String) : List Char :=
  encodeList p.1.toList ++ '=' :: encodeList p.2.toList

/-- Serialized characters of a pair list, pairs joined by `&`. -/
def serializeChars : List (String × String) → List Char
  | [] => []
  | [p] => pairChars p
  | p :: q :: rest => pairChars p ++ '&' :: serializeChars (q :: rest)

/-- `URLSearchParams.toString()`. -/
def serializePairs (ps : List (String × String)) : String :=
  String.mk (serializeChars ps)

/-- The query string produced inside `buildUrlWithParams`
(`searchParams.toString()`). -/
def buildQueryString (params : List (String × ParamValue)) : String :=
  serializePairs (buildPairs params)

/-- `buildUrlWithParams` (`src/services/utils.ts`): appends
`"?" ++ queryString` when the query string is non-empty (`queryString ?
url+"?"+queryString : url`). -/
def buildUrlWithParams (url : String) (params : List (String × ParamValue)) : String :=
  let queryString := buildQueryString params
  if queryString = "" then url else url ++ "?" ++ queryString

/-! ### A standard query-string parser

The parser below follows the `application/x-www-form-urlencoded` parsing
algorithm (as implemented, e.g., by the `URLSearchParams` constructor):
split the string on `&`, skip empty segments, split each segment at its
first `=` (the whole segment is the name when no `=` is present), then
percent-decode name and value, with `+` decoding to a space, and interpret
the decoded bytes as UTF-8. -/

/-- Numeric value of a hexadecimal digit character. -/
def hexVal (c : Char) : Option Nat :=
  if '0' ≤ c ∧ c ≤ '9' then some (c.toNat - 48)
  else if 'A' ≤ c ∧ c ≤ 'F' then some (c.toNat - 55)
  else if 'a' ≤ c ∧ c ≤ 'f' then some (c.toNat - 87)
  else none

/-- Split a character sequence on `&`. -/
def splitAmp : List Char → List (List Char)
  | [] => [[]]
  | c :: rest =>
    if c = '&' then [] :: splitAmp rest
    else
      match splitAmp rest with
      | [] => [[c]]
      | s :: ss => (c :: s) :: ss

/-- Split a character sequence at its first `=`; the second component is
empty when there is no `=`. -/
def splitEq : List Char → List Char × List Char
  | [] => ([], [])
  | c :: rest =>
    if c = '=' then ([], rest)
    else
      let p := splitEq rest
      (c :: p.1, p.2)

/-- Percent-decoding, one character at a time: `+` becomes the space byte,
a `%` followed by two hex digits becomes one byte, an invalid escape leaves
the `%` (and any consumed hex digit) as literal characters, and any other
character contributes its UTF-8 bytes. The state records an escape in
progress: `some none` after `%`, `some (some h)` after `%h` with `h` a hex
digit. -/
def percentDecodeAux : Option (Option Char) → List Char → List Nat
  | st, [] =>
    (match st with
     | none => []
     | some none => utf8Bytes '%'
     | some (some h) => utf8Bytes '%' ++ utf8Bytes h)
  | none, c :: rest =>
    if c = '%' then percentDecodeAux (some none) rest
    else if c = '+' then 32 :: percentDecodeAux none rest
    else utf8Bytes c ++ percentDecodeAux none rest
  | some none, c :: rest =>
    match hexVal c with
    | some _ => percentDecodeAux (some (some c)) rest
    | none =>
      utf8Bytes '%' ++
        (if c = '%' then percentDecodeAux (some none) rest
         else if c = '+' then 32 :: percentDecodeAux none rest
         else utf8Bytes c ++ percentDecodeAux none rest)
  | some (some h), c :: rest =>
    match hexVal h, hexVal c with
    | some a, some b => (16 * a + b) :: percentDecodeAux none rest
    | _, _ =>
      utf8Bytes '%' ++ utf8Bytes h ++
        (if c = '%' then percentDecodeAux (some none) rest
         else if c = '+' then 32 :: percentDecodeAux none rest
         else utf8Bytes c ++ percentDecodeAux none rest)

/-- Percent-decoding of a character sequence to a byte sequence. -/
def percentDecodeBytes (cs : List Char) : List Nat :=
  percentDecodeAux none cs

/-- UTF-8 decoding, one byte at a time: `pending` holds the scalar value
accumulated so far and `need` the number of continuation bytes still
expected; malformed sequences produce the replacement character
`U+FFFD`. -/
def utf8DecodeAux : Nat → Nat → List Nat → List Char
  | _, need, [] => if need = 0 then [] else [Char.ofNat 65533]
  | pending, need, b :: rest =>
    if need = 0 then
      if b < 128 then Char.ofNat b :: utf8DecodeAux 0 0 rest
      else if b < 192 then Char.ofNat 65533 :: utf8DecodeAux 0 0 rest
      else if b < 224 then utf8DecodeAux (b - 192) 1 rest
      else if b < 240 then utf8DecodeAux (b - 224) 2 rest
      else utf8DecodeAux (b - 240) 3 rest
    else
      if 128 ≤ b ∧ b < 192 then
        if need = 1 then Char.ofNat (pending * 64 + (b - 128)) :: utf8DecodeAux 0 0 rest
        else utf8DecodeAux (pending * 64 + (b - 128)) (need - 1) rest
      else Char.ofNat 65533 :: utf8DecodeAux 0 0 rest

/-- UTF-8 decoding of a byte sequence. -/
def utf8DecodeList (bs : List Nat) : List Char :=
  utf8DecodeAux 0 0 bs

/-- Percent-decoding of one name or value component. -/
def decodeComponent (cs : List Char) : String :=
  String.mk (utf8DecodeList (percentDecodeBytes cs))

/-- The standard query-string parser: the ordered list of decoded
name/value pairs of a query string. -/
def parseQuery (s : String) : List (String × String) :=
  ((splitAmp s.toList).filter (fun seg => !seg.isEmpty)).map
    (fun seg =>
      let kv := splitEq seg
      (decodeComponent kv.1, decodeComponent kv.2))

/-! ## HTTP client (`src/services/api-client.ts`)

`createApiClient` builds one axios instance with a request interceptor that
sets four headers from the process-wide environment configuration at request
time, and a response interceptor that returns `error.response` when the
transport produced an HTTP response and re-rejects otherwise. -/

/-- The process-wide environment configuration (`@/env`). -/
structure Env where
  apiHost : String
  workspaceId : String
  apiToken : String
deriving DecidableEq, Repr

/-- Header lists model the mutable `config.headers` object; assignment
(`config.headers[name] = value`) replaces the binding of `name` when
present and appends it otherwise. -/
def setHeader : List (String × String) → String → String → List (String × String)
  | [], name, value => [(name, value)]
  | p :: rest, name, value =>
    if p.1 = name then (name, value) :: rest else p :: setHeader rest name value

/-- Header lookup. -/
def getHeader (headers : List (String × String)) (name : String) : Option String :=
  (headers.find? (fun p => p.1 = name)).map (fun p => p.2)

/-- The mutable axios request configuration seen by the request
interceptor. -/
structure RequestConfig where
  headers : List (String × String)
deriving DecidableEq, Repr

/-- The request interceptor installed by `createApiClient`: it sets the
`Workspace-Id`, `Authorization`, `Accept` and `Content-Type` headers on the
outgoing configuration, reading `env` at the time the interceptor runs
(i.e., at request time). -/
def requestInterceptor (env : Env) (config : RequestConfig) : RequestConfig :=
  { config with
    headers :=
      setHeader
        (setHeader
          (setHeader
            (setHeader config.headers "Workspace-Id" env.workspaceId)
            "Authorization" ("Bearer " ++ env.apiToken))
          "Accept" "*/*")
        "Content-Type" "application/json" }

/-- An HTTP response as the transport delivers it: a status code and a
parsed body (`res.data`). -/
structure HttpResponse (β : Type) where
  status : Nat
  body : β
deriving DecidableEq, Repr

/-- The outcome the underlying transport hands to the response
interceptors: a fulfilled response (2xx), a rejection that carries the
received HTTP response (`error.response` set, e.g. a 404), or a rejection
with no response at all (network failure, timeout, DNS failure). -/
inductive TransportOutcome (β : Type) where
  | fulfilled (r : HttpResponse β)
  | rejectedWithResponse (r : HttpResponse β)
  | rejectedNoResponse (err : String)
deriving DecidableEq, Repr

/-- The response interceptor pair installed by `createApiClient`: the
success handler returns the response unchanged; the error handler returns
`error.response` when it is present and re-rejects (`Promise.reject`)
otherwise. -/
def responseInterceptor : TransportOutcome β → Except String (HttpResponse β)
  | .fulfilled r => .ok r
  | .rejectedWithResponse r => .ok r
  | .rejectedNoResponse err => .error err

/-! ## Generic fetch dispatcher (`apiFetch`) -/

/-- The request a call to `apiFetch` dispatches on the shared client: the
HTTP verb used, the url, and the payload sent as the request body (if
any). -/
structure RequestSpec where
  verb : String
  url : String
  payload : Option String
deriving DecidableEq, Repr

/-- The `switch (method)` of `apiFetch`: `post`, `put` and `patch` send the
payload; `delete` sends none; every other method value falls to the
`default` case, which dispatches `apiClient.get` with no payload. -/
def dispatchRequest (method : String) (url : String) (data : Option String) : RequestSpec :=
  if method = "post" then ⟨"post", url, data⟩
  else if method = "put" then ⟨"put", url, data⟩
  else if method = "delete" then ⟨"delete", url, none⟩
  else if method = "patch" then ⟨"patch", url, data⟩
  else ⟨"get", url, none⟩

/-- `apiFetch` against a simulated transport: dispatch the request built
from `method`/`url`/`data`, pass the transport's outcome through the
response interceptor, and unwrap the body (`.then((res) => res.data)`).
A rejection surviving the interceptor propagates unchanged. -/
def apiFetch (transport : RequestSpec → TransportOutcome β)
    (method url : String) (data : Option String) : Except String β :=
  (responseInterceptor (transport (dispatchRequest method url data))).map
    (fun r => r.body)

/-! ## Endpoint modules -/

/-- An error object of the generic envelope: `{status, title, detail}`. -/
structure ErrorObj where
  status : Nat
  title : String
  detail : String
deriving DecidableEq, Repr

/-- Pagination links of an envelope. -/
structure LinksType where
  first : String
  last : String
  self : String
  next : Option String
  prev : Option String
deriving DecidableEq, Repr

/-- Modelled from the spec: the repository's `src/services/common.ts`
(imported by the endpoint modules as `./common`) is not among the source
files; per the spec's data model, `ApiResponse<T>` is a "generic envelope —
optional data of type T, optional ordered sequence of error objects
{status, title, detail}, optional pagination links", and `executeModel`
additionally stores an optional numeric `status` in it. -/
structure ApiResponse (α : Type) where
  data : Option α := none
  status : Option Nat := none
  errors : Option (List ErrorObj) := none
  links : Option LinksType := none
deriving DecidableEq, Repr

/-- A scalar cell of a query-source result row:
`string | number | boolean | null`. -/
inductive FieldValue where
  | fstr (s : String)
  | fnum (n : Int)
  | fbool (b : Bool)
  | fnull
deriving DecidableEq, Repr

/-- One result row: `Record<string, string | number | boolean | null>`. -/
abbrev Field : Type := List (String × FieldValue)

/-- The nested connector reference of a model (`src/services/models.ts`). -/
structure ModelConnector where
  id : String
  name : String
  icon : String
deriving DecidableEq, Repr

/-- Model attributes (`src/services/models.ts`); only the fields
`executeModel` reads are listed together with the remaining string
fields. -/
structure ModelAttributes where
  id : String
  name : String
  description : String
  query : String
  query_type : String
  primary_key : String
  icon : String
  created_at : String
  updated_at : String
  connector : ModelConnector
deriving DecidableEq, Repr

/-- A model resource (`src/services/models.ts`). -/
structure Model where
  id : String
  type : String
  attributes : ModelAttributes
deriving DecidableEq, Repr

/-- A `querySource` network call issued against
`/connectors/{connectorId}/query_source` with body `{query}`. -/
structure QueryCall where
  connectorId : String
  query : String
deriving DecidableEq, Repr

/-- `executeModel(modelId)` (`src/services/models.ts`), given the envelope
`modelResponse` that the model-lookup call (`getModelById`) resolved with,
and the function `querySource` describing what the query-execution call
resolves with. The second component records the `querySource` calls issued:
when `modelResponse.data` is absent, the synthesized 404 envelope is
returned and no second call is made; otherwise exactly one query-execution
call is issued against the model's connector id with the model's query
text. -/
def executeModel (querySource : String → String → ApiResponse (List Field))
    (modelResponse : ApiResponse Model) :
    ApiResponse (List Field) × List QueryCall :=
  match modelResponse.data with
  | none =>
    ({ status := some 404,
       errors := some [{ status := 404, title := "Not Found", detail := "Model not found" }] },
     [])
  | some m =>
    (querySource m.attributes.connector.id m.attributes.query,
     [{ connectorId := m.attributes.connector.id, query := m.attributes.query }])

/-- The url of the request issued by `getReport`
(`src/services/dashboard.ts`): `buildUrlWithParams('/reports', ...)` with
`connector_ids` set to the id list when it is non-empty and to `undefined`
otherwise (`connectorIds.length > 0 ? connectorIds : undefined`). -/
def getReportUrl (metric : String) (timePeriod : String) (connectorIds : List Int) : String :=
  buildUrlWithParams "/reports"
    [("type", .str "workspace_activity"),
     ("metric", .str metric),
     ("time_period", .str timePeriod),
     ("connector_ids",
      if connectorIds.length > 0 then .arr (connectorIds.map ParamItem.inum) else .undef)]

/-! ## Auxiliary observations used in the statements -/

/-- Whether `pat` occurs as a contiguous prefix of `text`. -/
def isPrefixAt : List Char → List Char → Bool
  | [], _ => true
  | _ :: _, [] => false
  | p :: ps, t :: ts => p = t && isPrefixAt ps ts

/-- Whether the string `pat` occurs as a contiguous substring of `text`. -/
def occursIn (pat text : String) : Bool :=
  go pat.toList text.toList
where
  /-- Scan of the text character list. -/
  go (pat : List Char) : List Char → Bool
    | [] => pat.isEmpty
    | t :: ts => isPrefixAt pat (t :: ts) || go pat ts

/-- Whether a parameter value is a scalar or absent (i.e., not an
array). -/
def isScalarOrAbsent : ParamValue → Bool
  | .arr _ => false
  | _ => true

/-- The non-absent subset of a scalar mapping, values replaced by their
textual coercions: the expected parse of the query string built from a
mapping without array values. -/
def scalarEntries (params : List (String × ParamValue)) : List (String × String) :=
  params.filterMap (fun p =>
    match p.2 with
    | .str s => some (p.1, s)
    | .num n => some (p.1, toString n)
    | .bool b => some (p.1, if b then "true" else "false")
    | _ => none)

end AlphacodeTemplate

namespace AlphacodeTemplate

/-! ## Helper lemmas -/

theorem buildPairs_cons (p : String × ParamValue) (ps : List (String × ParamValue)) :
    buildPairs (p :: ps) = pairsOfEntry p.1 p.2 ++ buildPairs ps := by
  simp [buildPairs]

theorem buildPairs_append (ps qs : List (String × ParamValue)) :
    buildPairs (ps ++ qs) = buildPairs ps ++ buildPairs qs := by
  simp [buildPairs]

theorem buildPairs_eq_nil_of :
    ∀ params : List (String × ParamValue),
      (∀ p ∈ params, pairsOfEntry p.1 p.2 = []) → buildPairs params = [] := by
  intro params
  induction params with
  | nil => intro _; rfl
  | cons p ps ih =>
    intro h
    rw [buildPairs_cons, h p (by simp), List.nil_append]
    exact ih (fun q hq => h q (by simp [hq]))

theorem buildUrlWithParams_of_no_pairs (url : String)
    (params : List (String × ParamValue)) (h : buildPairs params = []) :
    buildUrlWithParams url params = url := by
  have hq : buildQueryString params = "" := by
    rw [buildQueryString, h]; rfl
  rw [buildUrlWithParams]
  simp [hq]

theorem getHeader_cons (p : String × String) (rest : List (String × String)) (name : String) :
    getHeader (p :: rest) name = if p.1 = name then some p.2 else getHeader rest name := by
  by_cases h : p.1 = name <;> simp [getHeader, List.find?, h]

theorem getHeader_setHeader_self (hs : List (String × String)) (name value : String) :
    getHeader (setHeader hs name value) name = some value := by
  induction hs with
  | nil => simp [setHeader, getHeader_cons]
  | cons p rest ih =>
    by_cases hp : p.1 = name
    · simp [setHeader, hp, getHeader_cons]
    · simp [setHeader, hp, getHeader_cons, ih]

theorem getHeader_setHeader_other (hs : List (String × String)) (name value other : String)
    (h : other ≠ name) : getHeader (setHeader hs name value) other = getHeader hs other := by
  have hne : ¬ name = other := fun he => h he.symm
  induction hs with
  | nil => simp [setHeader, getHeader_cons, getHeader, hne]
  | cons p rest ih =>
    by_cases hp : p.1 = name
    · simp [setHeader, hp, getHeader_cons, hne]
    · simp [setHeader, hp, getHeader_cons, ih]

end AlphacodeTemplate

namespace AlphacodeTemplate

/-! ## Claim theorems (first group) -/

/-- C1: For every call to `apiFetch`: if the underlying transport produces
an HTTP response — even one with a non-2xx status such as 404 — `apiFetch`
resolves with that response's body as a normal value rather than rejecting;
if the transport produces no response at all, the rejection propagates
unchanged to the caller. -/
theorem apiFetch_error_passthrough (β : Type)
    (transport : RequestSpec → TransportOutcome β) (method url : String)
    (data : Option String) :
    (∀ r, transport (dispatchRequest method url data) = .fulfilled r →
      apiFetch transport method url data = .ok r.body) ∧
    (∀ r, transport (dispatchRequest method url data) = .rejectedWithResponse r →
      apiFetch transport method url data = .ok r.body) ∧
    (∀ err, transport (dispatchRequest method url data) = .rejectedNoResponse err →
      apiFetch transport method url data = .error err) := by
  refine ⟨fun r hr => ?_, fun r hr => ?_, fun err he => ?_⟩ <;>
    simp [apiFetch, *, responseInterceptor, Except.map]

/-- Witness for C1: a simulated transport that yields a 404 response with
body `"error-envelope"` makes `apiFetch` resolve with that body, and a
transport that rejects without a response makes it propagate the
rejection. -/
theorem apiFetch_error_passthrough_witness :
    apiFetch (β := String) (fun _ => .rejectedWithResponse ⟨404, "error-envelope"⟩)
      "get" "/models/x" none = .ok "error-envelope" ∧
    apiFetch (β := String) (fun _ => .rejectedNoResponse "network down")
      "get" "/models/x" none = .error "network down" := by
  constructor
  · exact (apiFetch_error_passthrough String (fun _ => .rejectedWithResponse ⟨404, "error-envelope"⟩)
      "get" "/models/x" none).2.1 ⟨404, "error-envelope"⟩ rfl
  · exact (apiFetch_error_passthrough String (fun _ => .rejectedNoResponse "network down")
      "get" "/models/x" none).2.2 "network down" rfl

/-- C2: For every `modelId`: if the model-lookup call inside
`executeModel` resolves with an envelope whose `data` field is absent,
`executeModel` returns exactly the envelope
`{status: 404, errors: [{status: 404, title: 'Not Found', detail: 'Model
not found'}]}` and issues no second network call; otherwise it issues
exactly one query-execution call against the model's connector id with the
model's query text. -/
theorem executeModel_spec (querySource : String → String → ApiResponse (List Field))
    (modelResponse : ApiResponse Model) :
    (modelResponse.data = none →
      executeModel querySource modelResponse =
        ({ data := none,
           status := some 404,
           errors := some [{ status := 404, title := "Not Found", detail := "Model not found" }],
           links := none }, [])) ∧
    (∀ m, modelResponse.data = some m →
      executeModel querySource modelResponse =
        (querySource m.attributes.connector.id m.attributes.query,
         [{ connectorId := m.attributes.connector.id, query := m.attributes.query }])) := by
  constructor
  · intro h; simp [executeModel, h]
  · intro m h; simp [executeModel, h]

/-- Witness for C2: a lookup envelope with absent data yields the 404
envelope and no second call; a lookup envelope carrying a model yields one
query-execution call with the model's connector id and query text. -/
theorem executeModel_spec_witness :
    executeModel (fun _ _ => { data := some [] }) { data := none } =
      ({ data := none,
         status := some 404,
         errors := some [{ status := 404, title := "Not Found", detail := "Model not found" }],
         links := none }, []) ∧
    executeModel (fun _ _ => { data := some [] })
      { data := some
          { id := "m1", type := "model",
            attributes :=
              { id := "m1", name := "n", description := "d", query := "SELECT 1",
                query_type := "raw_sql", primary_key := "id", icon := "i",
                created_at := "c", updated_at := "u",
                connector := { id := "c9", name := "pg", icon := "ic" } } } } =
      ({ data := some [] }, [{ connectorId := "c9", query := "SELECT 1" }]) := by
  constructor
  · exact (executeModel_spec (fun _ _ => { data := some [] }) { data := none }).1 rfl
  · exact (executeModel_spec (fun _ _ => { data := some [] })
      { data := some
          { id := "m1", type := "model",
            attributes :=
              { id := "m1", name := "n", description := "d", query := "SELECT 1",
                query_type := "raw_sql", primary_key := "id", icon := "i",
                created_at := "c", updated_at := "u",
                connector := { id := "c9", name := "pg", icon := "ic" } } } }).2 _ rfl

/-- C3: For every base path and every mapping whose entries are all absent
(`undefined` or `null`), and for the empty mapping, `buildUrlWithParams`
returns the base path unchanged, with no trailing `?`. -/
theorem buildUrlWithParams_all_absent (url : String)
    (params : List (String × ParamValue))
    (h : ∀ p ∈ params, p.2 = ParamValue.undef ∨ p.2 = ParamValue.null) :
    buildUrlWithParams url params = url := by
  refine buildUrlWithParams_of_no_pairs url params (buildPairs_eq_nil_of params ?_)
  intro p hp
  rcases h p hp with h1 | h1 <;> rw [h1] <;> rfl

/-- Witness for C3: a mapping with one `undefined` and one `null` entry
(and the empty mapping, covered vacuously) leaves the base path
unchanged. -/
theorem buildUrlWithParams_all_absent_witness :
    buildUrlWithParams "/reports" [("a", ParamValue.undef), ("b", ParamValue.null)] = "/reports" :=
  buildUrlWithParams_all_absent "/reports" [("a", ParamValue.undef), ("b", ParamValue.null)]
    (by decide)

end AlphacodeTemplate

namespace AlphacodeTemplate

/-- C7: For every outgoing request, regardless of endpoint or method, the
request interceptor sets the headers `Workspace-Id`,
`Authorization: Bearer {token}`, `Accept: */*` and
`Content-Type: application/json`, reading the workspace id and token from
the process-wide configuration at request time, so two requests made around
a configuration change each carry the configuration values current at their
own call time. -/
theorem requestInterceptor_headers (env : Env) (config : RequestConfig)
    (env2 : Env) (config2 : RequestConfig) :
    getHeader (requestInterceptor env config).headers "Workspace-Id" = some env.workspaceId ∧
    getHeader (requestInterceptor env config).headers "Authorization" =
      some ("Bearer " ++ env.apiToken) ∧
    getHeader (requestInterceptor env config).headers "Accept" = some "*/*" ∧
    getHeader (requestInterceptor env config).headers "Content-Type" =
      some "application/json" ∧
    getHeader (requestInterceptor env2 config2).headers "Workspace-Id" =
      some env2.workspaceId ∧
    getHeader (requestInterceptor env2 config2).headers "Authorization" =
      some ("Bearer " ++ env2.apiToken) := by
  have core : ∀ (e : Env) (c : RequestConfig),
      getHeader (requestInterceptor e c).headers "Workspace-Id" = some e.workspaceId ∧
      getHeader (requestInterceptor e c).headers "Authorization" =
        some ("Bearer " ++ e.apiToken) ∧
      getHeader (requestInterceptor e c).headers "Accept" = some "*/*" ∧
      getHeader (requestInterceptor e c).headers "Content-Type" =
        some "application/json" := by
    intro e c
    simp only [requestInterceptor]
    refine ⟨?_, ?_, ?_, ?_⟩
    · rw [getHeader_setHeader_other, getHeader_setHeader_other,
        getHeader_setHeader_other, getHeader_setHeader_self] <;> decide
    · rw [getHeader_setHeader_other, getHeader_setHeader_other,
        getHeader_setHeader_self] <;> decide
    · rw [getHeader_setHeader_other, getHeader_setHeader_self]
      decide
    · rw [getHeader_setHeader_self]
  exact ⟨(core env config).1, (core env config).2.1, (core env config).2.2.1,
    (core env config).2.2.2, (core env2 config2).1, (core env2 config2).2.1⟩

/-- C8: `apiFetch` invoked with a method value outside the enumeration
`{get, post, put, delete, patch}` behaves exactly as `apiFetch` with method
`get` on the same url and options: it dispatches a GET with no payload and
returns the unwrapped response body. -/
theorem apiFetch_unknown_method (β : Type)
    (transport : RequestSpec → TransportOutcome β) (method url : String)
    (data : Option String)
    (h : method ∉ (["get", "post", "put", "delete", "patch"] : List String)) :
    dispatchRequest method url data = ⟨"get", url, none⟩ ∧
    apiFetch transport method url data = apiFetch transport "get" url data ∧
    (∀ r, transport ⟨"get", url, none⟩ = .fulfilled r →
      apiFetch transport method url data = .ok r.body) := by
  simp only [List.mem_cons, List.mem_singleton, not_or] at h
  obtain ⟨-, hpost, hput, hdel, hpatch, -⟩ := h
  have hd : dispatchRequest method url data = ⟨"get", url, none⟩ := by
    simp [dispatchRequest, hpost, hput, hdel, hpatch]
  have hg : dispatchRequest "get" url data = ⟨"get", url, none⟩ := by
    simp [dispatchRequest]
  refine ⟨hd, by rw [apiFetch, apiFetch, hd, hg], fun r hr => ?_⟩
  rw [apiFetch, hd, hr]
  rfl

/-- Witness for C8: the out-of-enumeration method `"head"` dispatches a GET
with no payload and unwraps the body exactly as `"get"` does. -/
theorem apiFetch_unknown_method_witness :
    dispatchRequest "head" "/syncs" (some "payload") = ⟨"get", "/syncs", none⟩ ∧
    apiFetch (β := String) (fun _ => .fulfilled ⟨200, "ok-body"⟩) "head" "/syncs" (some "payload") =
      apiFetch (fun _ => .fulfilled ⟨200, "ok-body"⟩) "get" "/syncs" (some "payload") := by
  have h := apiFetch_unknown_method String (fun _ => .fulfilled ⟨200, "ok-body"⟩)
    "head" "/syncs" (some "payload") (by decide)
  exact ⟨h.1, h.2.1⟩

/-- C9: In `buildUrlWithParams`, only `undefined` and `null` are treated as
absent and skipped: a key bound to `false`, `0`, or the empty string is
emitted in the output (`key=false`, `key=0`, `key=` respectively) rather
than being dropped. -/
theorem buildPairs_falsy_emitted (k : String) (pre post : List (String × ParamValue)) :
    buildPairs (pre ++ (k, ParamValue.bool false) :: post) =
      buildPairs pre ++ [(k, "false")] ++ buildPairs post ∧
    buildPairs (pre ++ (k, ParamValue.num 0) :: post) =
      buildPairs pre ++ [(k, "0")] ++ buildPairs post ∧
    buildPairs (pre ++ (k, ParamValue.str "") :: post) =
      buildPairs pre ++ [(k, "")] ++ buildPairs post ∧
    (∀ v : ParamValue, (∀ items, v ≠ ParamValue.arr items) →
      (pairsOfEntry k v = [] ↔ v = ParamValue.undef ∨ v = ParamValue.null)) := by
  have h0 : pairsOfEntry k (ParamValue.num 0) = [(k, "0")] := rfl
  have hf : pairsOfEntry k (ParamValue.bool false) = [(k, "false")] := rfl
  have he : pairsOfEntry k (ParamValue.str "") = [(k, "")] := rfl
  refine ⟨?_, ?_, ?_, ?_⟩
  · rw [buildPairs_append, buildPairs_cons]; simp [hf]
  · rw [buildPairs_append, buildPairs_cons]; simp [h0]
  · rw [buildPairs_append, buildPairs_cons]; simp [he]
  · intro v hv
    cases v with
    | arr items => exact absurd rfl (hv items)
    | _ => simp [pairsOfEntry]

/-- Witness for C9: concrete mappings binding a key to `false`, `0` and
`""`, and the skip-characterization at the non-absent value `"x"`. -/
theorem buildPairs_falsy_emitted_witness :
    buildPairs [("page", ParamValue.bool false)] = [("page", "false")] ∧
    (pairsOfEntry "page" (ParamValue.str "x") = [] ↔
      ParamValue.str "x" = ParamValue.undef ∨ ParamValue.str "x" = ParamValue.null) := by
  have h := buildPairs_falsy_emitted "page" [] []
  exact ⟨by simpa using h.1, h.2.2.2 (ParamValue.str "x") (by intro items; simp)⟩

/-- C10: In `buildUrlWithParams`, a key bound to an empty array contributes
no pairs to the output; in particular a mapping whose every value is an
empty array returns the base path unchanged with no `?`, the same as the
empty mapping. -/
theorem buildUrlWithParams_empty_arrays (url : String)
    (params : List (String × ParamValue))
    (h : ∀ p ∈ params, p.2 = ParamValue.arr []) :
    (∀ k, pairsOfEntry k (ParamValue.arr []) = []) ∧
    buildUrlWithParams url params = url ∧
    buildUrlWithParams url params = buildUrlWithParams url [] := by
  have hk : ∀ k, pairsOfEntry k (ParamValue.arr []) = [] := fun k => rfl
  have hu : buildUrlWithParams url params = url := by
    refine buildUrlWithParams_of_no_pairs url params (buildPairs_eq_nil_of params ?_)
    intro p hp
    rw [h p hp]
    exact hk p.1
  exact ⟨hk, hu, by rw [hu]; rfl⟩

/-- Witness for C10: a mapping of two empty-array entries returns the base
path unchanged. -/
theorem buildUrlWithParams_empty_arrays_witness :
    buildUrlWithParams "/reports"
      [("connector_ids", ParamValue.arr []), ("other", ParamValue.arr [])] = "/reports" :=
  (buildUrlWithParams_empty_arrays "/reports"
    [("connector_ids", ParamValue.arr []), ("other", ParamValue.arr [])] (by decide)).2.1

end AlphacodeTemplate

namespace AlphacodeTemplate

/-! ## Helper lemmas for the array-expansion claim -/

theorem append_brackets_ne (key : String) : key ++ "[]" ≠ key := by
  intro h
  have hlen := congrArg String.length h
  rw [String.length_append] at hlen
  have h2 : ("[]" : String).length = 2 := rfl
  omega

theorem pairsOfEntry_fst (k : String) (v : ParamValue) :
    ∀ p ∈ pairsOfEntry k v, p.1 = k ∨ p.1 = k ++ "[]" := by
  intro p hp
  cases v with
  | str s => simp [pairsOfEntry] at hp; exact Or.inl (by rw [hp])
  | num n => simp [pairsOfEntry] at hp; exact Or.inl (by rw [hp])
  | bool b => simp [pairsOfEntry] at hp; exact Or.inl (by rw [hp])
  | undef => simp [pairsOfEntry] at hp
  | null => simp [pairsOfEntry] at hp
  | arr items =>
    simp only [pairsOfEntry, List.mem_map] at hp
    obtain ⟨it, -, rfl⟩ := hp
    exact Or.inr rfl

theorem mem_buildPairs (ps : List (String × ParamValue)) (p : String × String)
    (hp : p ∈ buildPairs ps) : ∃ e ∈ ps, p ∈ pairsOfEntry e.1 e.2 := by
  simp only [buildPairs, List.mem_flatten, List.mem_map] at hp
  obtain ⟨l, ⟨e, he, rfl⟩, hpl⟩ := hp
  exact ⟨e, he, hpl⟩

/-- C4: For every mapping containing a key bound to an array of length `n`,
`buildUrlWithParams` emits exactly `n` pairs of the form `key[]=item`, one
per element, preserving the array's order (each item percent-encoded by the
serializer), and emits no separate bare `key=` entry for that key. -/
theorem buildPairs_array_expansion (key : String) (items : List ParamItem)
    (pre post : List (String × ParamValue)) :
    buildPairs (pre ++ (key, ParamValue.arr items) :: post)
      = buildPairs pre ++ items.map (fun it => (key ++ "[]", itemToString it))
          ++ buildPairs post
    ∧ (items.map (fun it => (key ++ "[]", itemToString it))).length = items.length
    ∧ (∀ p ∈ items.map (fun it => (key ++ "[]", itemToString it)),
        p.1 = key ++ "[]" ∧ p.1 ≠ key)
    ∧ ((∀ k' ∈ (pre ++ post).map Prod.fst, k' ≠ key ∧ k' ++ "[]" ≠ key) →
        ∀ p ∈ buildPairs (pre ++ (key, ParamValue.arr items) :: post), p.1 ≠ key) := by
  refine ⟨?_, List.length_map _ _, ?_, ?_⟩
  · rw [buildPairs_append, buildPairs_cons]
    simp [pairsOfEntry, List.append_assoc]
  · intro p hp
    simp only [List.mem_map] at hp
    obtain ⟨it, -, rfl⟩ := hp
    exact ⟨rfl, append_brackets_ne key⟩
  · intro hother p hp
    obtain ⟨e, he, hpe⟩ := mem_buildPairs _ p hp
    rcases List.mem_append.1 he with hepre | hecons
    · have hk := hother e.1 (List.mem_map_of_mem Prod.fst (List.mem_append_left post hepre))
      rcases pairsOfEntry_fst e.1 e.2 p hpe with h1 | h1
      · rw [h1]; exact hk.1
      · rw [h1]; exact hk.2
    · rcases List.mem_cons.1 hecons with rfl | hepost
      · simp only [pairsOfEntry, List.mem_map] at hpe
        obtain ⟨it, -, rfl⟩ := hpe
        exact append_brackets_ne key
      · have hk := hother e.1 (List.mem_map_of_mem Prod.fst (List.mem_append_right pre hepost))
        rcases pairsOfEntry_fst e.1 e.2 p hpe with h1 | h1
        · rw [h1]; exact hk.1
        · rw [h1]; exact hk.2

/-- Witness for C4: the mapping `{type: "t", ids: [1, 2]}` expands the
`ids` entry to the two ordered pairs `ids[]=1`, `ids[]=2` and emits no bare
`ids=` pair. -/
theorem buildPairs_array_expansion_witness :
    buildPairs ([("type", ParamValue.str "t")] ++
        ("ids", ParamValue.arr [ParamItem.inum 1, ParamItem.inum 2]) :: [])
      = buildPairs [("type", ParamValue.str "t")]
          ++ [ParamItem.inum 1, ParamItem.inum 2].map
              (fun it => ("ids" ++ "[]", itemToString it))
          ++ buildPairs []
    ∧ (∀ p ∈ buildPairs ([("type", ParamValue.str "t")] ++
        ("ids", ParamValue.arr [ParamItem.inum 1, ParamItem.inum 2]) :: []), p.1 ≠ "ids") := by
  have h := buildPairs_array_expansion "ids" [ParamItem.inum 1, ParamItem.inum 2]
    [("type", ParamValue.str "t")] []
  exact ⟨h.1, h.2.2.2 (by decide)⟩

end AlphacodeTemplate

namespace AlphacodeTemplate

/-! ## Round-trip lemmas for the urlencoded serializer and parser -/

theorem char_toNat_lt (c : Char) : c.toNat < 1114112 := by
  rcases c.valid with h | ⟨-, h⟩
  · exact Nat.lt_trans h (by norm_num)
  · exact h

theorem utf8Bytes_lt (c : Char) : ∀ b ∈ utf8Bytes c, b < 256 := by
  intro b hb
  have hn := char_toNat_lt c
  simp only [utf8Bytes] at hb
  split_ifs at hb with h1 h2 h3 <;>
    simp only [List.mem_cons, List.mem_singleton, List.not_mem_nil, or_false] at hb
  · omega
  · rcases hb with rfl | rfl <;> omega
  · rcases hb with rfl | rfl | rfl <;> omega
  · rcases hb with rfl | rfl | rfl | rfl <;> omega

theorem utf8DecodeAux_utf8Bytes (c : Char) (rest : List Nat) :
    utf8DecodeAux 0 0 (utf8Bytes c ++ rest) = c :: utf8DecodeAux 0 0 rest := by
  have hn := char_toNat_lt c
  have hc := Char.ofNat_toNat c
  simp only [utf8Bytes]
  by_cases h1 : c.toNat < 128
  · rw [if_pos h1]
    simp only [List.cons_append, List.nil_append]
    rw [utf8DecodeAux, if_pos rfl, if_pos h1, hc]
  · by_cases h2 : c.toNat < 2048
    · rw [if_neg h1, if_pos h2]
      simp only [List.cons_append, List.nil_append]
      have e1 : ¬ (192 + c.toNat / 64 < 128) := by omega
      have e2 : ¬ (192 + c.toNat / 64 < 192) := by omega
      have e3 : 192 + c.toNat / 64 < 224 := by omega
      have e4 : 128 ≤ 128 + c.toNat % 64 ∧ 128 + c.toNat % 64 < 192 := by omega
      rw [utf8DecodeAux, if_pos rfl, if_neg e1, if_neg e2, if_pos e3,
        utf8DecodeAux, if_neg (by omega : ¬ (1 : Nat) = 0), if_pos e4, if_pos rfl]
      rw [show (192 + c.toNat / 64 - 192) * 64 + (128 + c.toNat % 64 - 128) = c.toNat from by
        omega, hc]
    · by_cases h3 : c.toNat < 65536
      · rw [if_neg h1, if_neg h2, if_pos h3]
        simp only [List.cons_append, List.nil_append]
        have e1 : ¬ (224 + c.toNat / 4096 < 128) := by omega
        have e2 : ¬ (224 + c.toNat / 4096 < 192) := by omega
        have e3 : ¬ (224 + c.toNat / 4096 < 224) := by omega
        have e4 : 224 + c.toNat / 4096 < 240 := by omega
        have e5 : 128 ≤ 128 + c.toNat / 64 % 64 ∧ 128 + c.toNat / 64 % 64 < 192 := by omega
        have e6 : 128 ≤ 128 + c.toNat % 64 ∧ 128 + c.toNat % 64 < 192 := by omega
        rw [utf8DecodeAux, if_pos rfl, if_neg e1, if_neg e2, if_neg e3, if_pos e4,
          utf8DecodeAux, if_neg (by omega : ¬ (2 : Nat) = 0), if_pos e5,
          if_neg (by omega : ¬ (2 : Nat) = 1),
          utf8DecodeAux, if_neg (by omega : ¬ (2 - 1 : Nat) = 0), if_pos e6,
          if_pos (by omega : (2 - 1 : Nat) = 1)]
        rw [show ((224 + c.toNat / 4096 - 224) * 64 + (128 + c.toNat / 64 % 64 - 128)) * 64 +
            (128 + c.toNat % 64 - 128) = c.toNat from by omega, hc]
      · rw [if_neg h1, if_neg h2, if_neg h3]
        simp only [List.cons_append, List.nil_append]
        have e1 : ¬ (240 + c.toNat / 262144 < 128) := by omega
        have e2 : ¬ (240 + c.toNat / 262144 < 192) := by omega
        have e3 : ¬ (240 + c.toNat / 262144 < 224) := by omega
        have e4 : ¬ (240 + c.toNat / 262144 < 240) := by omega
        have e5 : 128 ≤ 128 + c.toNat / 4096 % 64 ∧ 128 + c.toNat / 4096 % 64 < 192 := by omega
        have e6 : 128 ≤ 128 + c.toNat / 64 % 64 ∧ 128 + c.toNat / 64 % 64 < 192 := by omega
        have e7 : 128 ≤ 128 + c.toNat % 64 ∧ 128 + c.toNat % 64 < 192 := by omega
        rw [utf8DecodeAux, if_pos rfl, if_neg e1, if_neg e2, if_neg e3, if_neg e4,
          utf8DecodeAux, if_neg (by omega : ¬ (3 : Nat) = 0), if_pos e5,
          if_neg (by omega : ¬ (3 : Nat) = 1),
          utf8DecodeAux, if_neg (by omega : ¬ (3 - 1 : Nat) = 0), if_pos e6,
          if_neg (by omega : ¬ (3 - 1 : Nat) = 1),
          utf8DecodeAux, if_neg (by omega : ¬ (3 - 1 - 1 : Nat) = 0), if_pos e7,
          if_pos (by omega : (3 - 1 - 1 : Nat) = 1)]
        rw [show (((240 + c.toNat / 262144 - 240) * 64 + (128 + c.toNat / 4096 % 64 - 128)) * 64 +
            (128 + c.toNat / 64 % 64 - 128)) * 64 + (128 + c.toNat % 64 - 128) = c.toNat from by
          omega, hc]

theorem hexVal_hexDigitChar (n : Nat) (h : n < 16) :
    hexVal (hexDigitChar n) = some n := by
  interval_cases n <;> decide

end AlphacodeTemplate

namespace AlphacodeTemplate

theorem pd_percentByte (b : Nat) (hb : b < 256) (rest : List Char) :
    percentDecodeAux none (percentByte b ++ rest) = b :: percentDecodeAux none rest := by
  have hhi : hexVal (hexDigitChar (b / 16)) = some (b / 16) :=
    hexVal_hexDigitChar _ (by omega)
  have hlo : hexVal (hexDigitChar (b % 16)) = some (b % 16) :=
    hexVal_hexDigitChar _ (by omega)
  simp only [percentByte, List.cons_append, List.nil_append]
  rw [percentDecodeAux, if_pos rfl]
  rw [percentDecodeAux, hhi]
  simp only []
  rw [percentDecodeAux, hhi, hlo]
  simp only []
  rw [show 16 * (b / 16) + b % 16 = b from by omega]

theorem isUrlUnreserved_ne (c : Char) (h : isUrlUnreserved c = true) :
    c ≠ '%' ∧ c ≠ '+' ∧ c ≠ '&' ∧ c ≠ '=' := by
  refine ⟨?_, ?_, ?_, ?_⟩ <;> rintro rfl <;> exact absurd h (by decide)

theorem pd_encodeChar (c : Char) (rest : List Char) :
    percentDecodeAux none (encodeChar c ++ rest) = utf8Bytes c ++ percentDecodeAux none rest := by
  rw [encodeChar]
  by_cases hu : isUrlUnreserved c
  · rw [if_pos hu]
    obtain ⟨h1, h2, -, -⟩ := isUrlUnreserved_ne c hu
    simp only [List.cons_append, List.nil_append]
    rw [percentDecodeAux, if_neg h1, if_neg h2]
  · rw [if_neg hu]
    by_cases hs : c = ' '
    · rw [if_pos hs, hs]
      simp only [List.cons_append, List.nil_append]
      rw [percentDecodeAux, if_neg (by decide), if_pos rfl]
      rfl
    · rw [if_neg hs]
      have hbytes := utf8Bytes_lt c
      rw [show utf8Bytes c ++ percentDecodeAux none rest =
        utf8Bytes c ++ percentDecodeAux none rest from rfl]
      revert hbytes
      generalize utf8Bytes c = bs
      intro hbytes
      induction bs with
      | nil => simp
      | cons b bs ih =>
        simp only [List.map_cons, List.flatten_cons, List.append_assoc]
        rw [pd_percentByte b (hbytes b (by simp)) _]
        rw [ih (fun x hx => hbytes x (by simp [hx]))]
        simp

theorem pd_encodeList (cs : List Char) (rest : List Char) :
    percentDecodeAux none (encodeList cs ++ rest) =
      (cs.map utf8Bytes).flatten ++ percentDecodeAux none rest := by
  induction cs with
  | nil => simp [encodeList]
  | cons c cs ih =>
    simp only [encodeList, List.map_cons, List.flatten_cons, List.append_assoc] at ih ⊢
    rw [pd_encodeChar, ih]

theorem utf8DecodeAux_flatten (cs : List Char) (rest : List Nat) :
    utf8DecodeAux 0 0 ((cs.map utf8Bytes).flatten ++ rest) = cs ++ utf8DecodeAux 0 0 rest := by
  induction cs with
  | nil => simp
  | cons c cs ih =>
    simp only [List.map_cons, List.flatten_cons, List.append_assoc]
    rw [utf8DecodeAux_utf8Bytes, ih]
    rfl

theorem decodeComponent_encodeList (s : String) :
    decodeComponent (encodeList s.toList) = s := by
  have h1 : percentDecodeBytes (encodeList s.toList) = (s.toList.map utf8Bytes).flatten := by
    rw [percentDecodeBytes,
      show encodeList s.toList = encodeList s.toList ++ [] from (List.append_nil _).symm,
      pd_encodeList, show percentDecodeAux none [] = [] from rfl, List.append_nil]
  have h2 : utf8DecodeList ((s.toList.map utf8Bytes).flatten) = s.toList := by
    rw [utf8DecodeList,
      show (s.toList.map utf8Bytes).flatten = (s.toList.map utf8Bytes).flatten ++ []
        from (List.append_nil _).symm,
      utf8DecodeAux_flatten, show utf8DecodeAux 0 0 [] = [] from rfl, List.append_nil]
  rw [decodeComponent, h1, h2]
  rfl

end AlphacodeTemplate

namespace AlphacodeTemplate

theorem hexDigitChar_ne (n : Nat) (h : n < 16) :
    hexDigitChar n ≠ '&' ∧ hexDigitChar n ≠ '=' := by
  interval_cases n <;> exact ⟨by decide, by decide⟩

theorem encodeChar_ne (c : Char) :
    ∀ x ∈ encodeChar c, x ≠ '&' ∧ x ≠ '=' := by
  intro x hx
  rw [encodeChar] at hx
  by_cases hu : isUrlUnreserved c
  · rw [if_pos hu] at hx
    simp only [List.mem_singleton] at hx
    cases hx
    exact ⟨(isUrlUnreserved_ne _ hu).2.2.1, (isUrlUnreserved_ne _ hu).2.2.2⟩
  · rw [if_neg hu] at hx
    by_cases hs : c = ' '
    · rw [if_pos hs] at hx
      simp only [List.mem_singleton] at hx
      subst hx
      exact ⟨by decide, by decide⟩
    · rw [if_neg hs] at hx
      simp only [List.mem_flatten, List.mem_map] at hx
      obtain ⟨l, ⟨b, hb, rfl⟩, hxl⟩ := hx
      have hb256 := utf8Bytes_lt c b hb
      simp only [percentByte, List.mem_cons, List.not_mem_nil, or_false] at hxl
      rcases hxl with rfl | rfl | rfl
      · exact ⟨by decide, by decide⟩
      · exact hexDigitChar_ne _ (by omega)
      · exact hexDigitChar_ne _ (by omega)

theorem encodeList_ne (cs : List Char) :
    ∀ x ∈ encodeList cs, x ≠ '&' ∧ x ≠ '=' := by
  intro x hx
  simp only [encodeList, List.mem_flatten, List.mem_map] at hx
  obtain ⟨l, ⟨c, -, rfl⟩, hxl⟩ := hx
  exact encodeChar_ne c x hxl

theorem splitAmp_no_amp (a : List Char) (h : ∀ x ∈ a, x ≠ '&') :
    splitAmp a = [a] := by
  induction a with
  | nil => rfl
  | cons c rest ih =>
    rw [splitAmp, if_neg (h c (by simp)), ih (fun x hx => h x (by simp [hx]))]

theorem splitAmp_append (a t : List Char) (h : ∀ x ∈ a, x ≠ '&') :
    splitAmp (a ++ '&' :: t) = a :: splitAmp t := by
  induction a with
  | nil =>
    simp only [List.nil_append]
    rw [splitAmp, if_pos rfl]
  | cons c rest ih =>
    simp only [List.cons_append]
    rw [splitAmp, if_neg (h c (by simp)), ih (fun x hx => h x (by simp [hx]))]

theorem splitEq_append (a b : List Char) (h : ∀ x ∈ a, x ≠ '=') :
    splitEq (a ++ '=' :: b) = (a, b) := by
  induction a with
  | nil =>
    simp only [List.nil_append]
    rw [splitEq, if_pos rfl]
  | cons c rest ih =>
    simp only [List.cons_append]
    rw [splitEq, if_neg (h c (by simp)), ih (fun x hx => h x (by simp [hx]))]

theorem pairChars_ne_amp (p : String × String) : ∀ x ∈ pairChars p, x ≠ '&' := by
  intro x hx
  simp only [pairChars, List.mem_append, List.mem_cons] at hx
  rcases hx with hx | hx | hx
  · exact (encodeList_ne _ x hx).1
  · subst hx; decide
  · exact (encodeList_ne _ x hx).1

theorem pairChars_ne_nil (p : String × String) : pairChars p ≠ [] := by
  simp [pairChars]

theorem parseSegment_pairChars (p : String × String) :
    (decodeComponent (splitEq (pairChars p)).1, decodeComponent (splitEq (pairChars p)).2) = p := by
  rw [pairChars, splitEq_append _ _ (fun x hx => (encodeList_ne _ x hx).2)]
  rw [decodeComponent_encodeList, decodeComponent_encodeList]

theorem parseQuery_serializePairs (ps : List (String × String)) :
    parseQuery (serializePairs ps) = ps := by
  induction ps with
  | nil => rfl
  | cons p rest ih =>
    cases rest with
    | nil =>
      show ((splitAmp (pairChars p)).filter (fun seg => !seg.isEmpty)).map
        (fun seg => (decodeComponent (splitEq seg).1, decodeComponent (splitEq seg).2)) = [p]
      rw [splitAmp_no_amp _ (pairChars_ne_amp p)]
      rw [List.filter_cons_of_pos (by simpa using pairChars_ne_nil p)]
      rw [List.filter_nil, List.map_cons, List.map_nil, parseSegment_pairChars]
    | cons q rest2 =>
      show ((splitAmp (serializeChars (p :: q :: rest2))).filter (fun seg => !seg.isEmpty)).map
        (fun seg => (decodeComponent (splitEq seg).1, decodeComponent (splitEq seg).2)) =
        p :: q :: rest2
      rw [serializeChars, splitAmp_append _ _ (pairChars_ne_amp p)]
      rw [List.filter_cons_of_pos (by simpa using pairChars_ne_nil p)]
      rw [List.map_cons, parseSegment_pairChars]
      exact congrArg (p :: ·) ih

end AlphacodeTemplate

namespace AlphacodeTemplate

theorem buildPairs_eq_scalarEntries (params : List (String × ParamValue))
    (h : ∀ p ∈ params, isScalarOrAbsent p.2 = true) :
    buildPairs params = scalarEntries params := by
  induction params with
  | nil => rfl
  | cons p ps ih =>
    have hp := h p (by simp)
    have ihh := ih (fun q hq => h q (by simp [hq]))
    rw [buildPairs_cons]
    obtain ⟨k, v⟩ := p
    cases v with
    | arr items => exact absurd hp (by simp [isScalarOrAbsent])
    | undef => simpa [pairsOfEntry, scalarEntries, List.filterMap_cons] using ihh
    | null => simpa [pairsOfEntry, scalarEntries, List.filterMap_cons] using ihh
    | str sv => simpa [pairsOfEntry, scalarEntries, List.filterMap_cons] using ihh
    | num n => simpa [pairsOfEntry, scalarEntries, List.filterMap_cons] using ihh
    | bool b => simpa [pairsOfEntry, scalarEntries, List.filterMap_cons] using ihh

/-- C5: For every mapping whose non-absent values are all scalars (string,
number, or boolean), re-parsing the query string produced by
`buildUrlWithParams` with a standard query-string parser yields a mapping
equal to the non-absent subset of the input, with values as their textual
coercions (round-trip law). -/
theorem parseQuery_buildQueryString_roundtrip (params : List (String × ParamValue))
    (h : ∀ p ∈ params, isScalarOrAbsent p.2 = true) :
    parseQuery (buildQueryString params) = scalarEntries params := by
  rw [buildQueryString, parseQuery_serializePairs, buildPairs_eq_scalarEntries params h]

/-- Witness for C5: a concrete scalar mapping with a space, a reserved
character, a negative number, a boolean and an absent entry
round-trips. -/
theorem parseQuery_buildQueryString_roundtrip_witness :
    (∀ p ∈ ([("a", ParamValue.str "hello world&x"), ("b", ParamValue.num (-5)),
        ("c", ParamValue.undef), ("d", ParamValue.bool true)] : List (String × ParamValue)),
      isScalarOrAbsent p.2 = true) ∧
    parseQuery (buildQueryString
        [("a", ParamValue.str "hello world&x"), ("b", ParamValue.num (-5)),
         ("c", ParamValue.undef), ("d", ParamValue.bool true)]) =
      scalarEntries
        [("a", ParamValue.str "hello world&x"), ("b", ParamValue.num (-5)),
         ("c", ParamValue.undef), ("d", ParamValue.bool true)] :=
  ⟨by decide, parseQuery_buildQueryString_roundtrip _ (by decide)⟩

end AlphacodeTemplate

namespace AlphacodeTemplate

/-- C6 (counterexample): `getReport({connectorIds: [1,2]})` does not issue
a request whose query string contains the literal text
`connector_ids[]=1&connector_ids[]=2`: the urlencoded serializer
percent-encodes the brackets of the `connector_ids[]` parameter name, so
the query string contains `connector_ids%5B%5D=1&connector_ids%5B%5D=2`
instead. -/
theorem getReportUrl_brackets_encoded :
    getReportUrl "all" "one_week" [1, 2] =
      "/reports?type=workspace_activity&metric=all&time_period=one_week&connector_ids%5B%5D=1&connector_ids%5B%5D=2" ∧
    occursIn "connector_ids[]=1&connector_ids[]=2" (getReportUrl "all" "one_week" [1, 2]) =
      false := by
  constructor
  · decide
  · decide

/-- C6 (amended): `getReport` called with an empty `connectorIds` list
issues a request whose query string contains no `connector_ids` parameter
at all (the empty list is translated to absent before reaching the
query-string builder), while `getReport({connectorIds: [1,2]})` issues a
request whose query string contains
`connector_ids%5B%5D=1&connector_ids%5B%5D=2` — that is,
`connector_ids[]=1&connector_ids[]=2` with the brackets of the parameter
name percent-encoded by the serializer; a standard query-string parser
reads the two pairs back as `connector_ids[]` bound to `1` and then `2`. -/
theorem getReportUrl_connector_ids :
    getReportUrl "all" "one_week" [] =
      "/reports?type=workspace_activity&metric=all&time_period=one_week" ∧
    occursIn "connector_ids" (getReportUrl "all" "one_week" []) = false ∧
    getReportUrl "all" "one_week" [1, 2] =
      "/reports?type=workspace_activity&metric=all&time_period=one_week&connector_ids%5B%5D=1&connector_ids%5B%5D=2" ∧
    occursIn "connector_ids%5B%5D=1&connector_ids%5B%5D=2"
      (getReportUrl "all" "one_week" [1, 2]) = true ∧
    parseQuery
        "type=workspace_activity&metric=all&time_period=one_week&connector_ids%5B%5D=1&connector_ids%5B%5D=2" =
      [("type", "workspace_activity"), ("metric", "all"), ("time_period", "one_week"),
       ("connector_ids[]", "1"), ("connector_ids[]", "2")] := by
  refine ⟨?_, ?_, ?_, ?_, ?_⟩ <;> decide

end AlphacodeTemplate
